import Mathlib

set_option linter.unusedSectionVars false

/-!
Verification of the separate-chaining hash table in `src/hash_table/HashTable.h`
(template class `HashTable<Key, Value>`).

The embedding is a shallow one:

* a bucket chain (`Node` linked list, head first) is a `List (K × V)`;
* the bucket vector `std::vector<std::unique_ptr<Node>>` is a `List (List (K × V))`
  whose length models `buckets.size()` — the code does *not* keep this equal to the
  `table_size` field (`Clear` empties the vector, move zeroes `table_size`), so the
  two are tracked separately exactly as in the source;
* `std::hash<Key>` is an arbitrary parameter `hash : K → Nat`; `size_t` arithmetic
  is `Nat` (all quantities involved are far below `2^64`, so no wrap is dropped);
* the `float load_refactor` and the load-factor comparison are modeled over `ℚ`
  (the literals the claims use, `0.75`, are exactly representable in `float`, so
  the comparison in the source is exact there);
* a C++ exception (`std::out_of_range`) is `HTRes.keyNotFound`; C++ undefined
  behavior (modulo by zero, out-of-bounds `operator[]`, reading a destroyed node)
  is `HTRes.ub`.

`CopyBuckets` manipulates raw pointers into *both* tables and destroys nodes
mid-loop, so it alone is embedded against an explicit heap (addresses are `Nat`,
a freed cell is `none`); every read of a freed cell yields `HTRes.ub`.
-/

namespace HashTableModel

/-- Result of an operation: `ok` is a normal return, `keyNotFound` is the thrown
`std::out_of_range`, and `ub` marks C++ undefined behavior (modulo by zero,
out-of-bounds `operator[]`, or use of a destroyed node). -/
inductive HTRes (α : Type) where
  | ok : α → HTRes α
  | keyNotFound : HTRes α
  | ub : HTRes α
deriving DecidableEq

/-- Sequencing of fallible steps: an exception or UB propagates. -/
def HTRes.bind {α β : Type} : HTRes α → (α → HTRes β) → HTRes β
  | .ok a, f => f a
  | .keyNotFound, _ => .keyNotFound
  | .ub, _ => .ub

/-- State of `HashTable<Key, Value>`: the member variables of the class.
`buckets` is the `std::vector` of chains (each chain head first); its length is
the vector's size, which the source lets drift away from `table_size`. -/
structure HashTable (K V : Type) where
  buckets : List (List (K × V))
  table_size : Nat
  element_count : Nat
  load_refactor : ℚ
deriving DecidableEq

variable {K V : Type} [DecidableEq K]

/-- `HashTable(size_t table_size = 16, float load_factor = 0.75)`: the constructor
performs no validation at all — it stores the fields and sizes the vector. -/
def mkHashTable (table_size : Nat) (load_factor : ℚ) : HashTable K V :=
  { buckets := List.replicate table_size []
    table_size := table_size
    element_count := 0
    load_refactor := load_factor }

/-- `int HashFunction(const Key&) const`: `hash(key) % table_size`.
`% 0` is C++ undefined behavior, modeled as `none`. -/
def HashFunction (hash : K → Nat) (t : HashTable K V) (k : K) : Option Nat :=
  if t.table_size = 0 then none else some (hash k % t.table_size)

/-- The scan `while (current) { if (current->key == key) return current->value; ... }`
over one chain: value of the first entry whose key equals `k`, if any. -/
def lookupVal : List (K × V) → K → Option V
  | [], _ => none
  | e :: rest, k => if e.1 = k then some e.2 else lookupVal rest k

/-- In-place overwrite of the value of the first entry whose key equals `k`
(`current->value = value`), keeping the chain otherwise untouched. -/
def setVal : List (K × V) → K → V → List (K × V)
  | [], _, _ => []
  | e :: rest, k, v => if e.1 = k then (e.1, v) :: rest else e :: setVal rest k v

/-- Unlinking of the first entry whose key equals `k`
(`bucket = move(current->next)` / `previous->next = move(current->next)`);
`none` when the chain has no such entry. -/
def removeKey : List (K × V) → K → Option (List (K × V))
  | [], _ => none
  | e :: rest, k =>
    if e.1 = k then some rest
    else (removeKey rest k).map (e :: ·)

/-- Inner loop of `Resize`: relocates one chain, head first, each node pushed to
the *front* of its target chain (`current->next = move(new_buckets[new_index]);
new_buckets[new_index] = move(current)`).  `ts` is the `table_size` in effect
while the loop runs — the source has not yet updated it, so this is the *old*
capacity (the relocation bug). -/
def resizeChain (hash : K → Nat) (ts : Nat) :
    List (K × V) → List (List (K × V)) → HTRes (List (List (K × V)))
  | [], nb => .ok nb
  | e :: rest, nb =>
    if ts = 0 then .ub
    else
      let idx := hash e.1 % ts
      match nb.get? idx with
      | none => .ub
      | some target => resizeChain hash ts rest (nb.set idx (e :: target))

/-- Outer loop of `Resize`: `for (auto &bucket : buckets)`. -/
def resizeBuckets (hash : K → Nat) (ts : Nat) :
    List (List (K × V)) → List (List (K × V)) → HTRes (List (List (K × V)))
  | [], nb => .ok nb
  | c :: rest, nb =>
    match resizeChain hash ts c nb with
    | .ok nb' => resizeBuckets hash ts rest nb'
    | .keyNotFound => .keyNotFound
    | .ub => .ub

/-- `void Resize()`: doubles `table_size`, relocating every node into
`new_buckets[HashFunction(current->key)]`.  Faithful to the source, the
relocation indices are computed with the **old** `table_size`, because
`table_size = new_size` is executed only after the loop. -/
def Resize (hash : K → Nat) (t : HashTable K V) : HTRes (HashTable K V) :=
  match resizeBuckets hash t.table_size t.buckets
      (List.replicate (t.table_size * 2) []) with
  | .ok nb =>
    .ok { buckets := nb
          table_size := t.table_size * 2
          element_count := t.element_count
          load_refactor := t.load_refactor }
  | .keyNotFound => .keyNotFound
  | .ub => .ub

/-- Lines 206–221 of `Insert` (after the growth pre-check): the key is hashed
with the current `table_size`, the chain is scanned for an equal key (overwrite
in place), otherwise a new node becomes the chain head and `element_count` is
incremented. -/
def insertCore (hash : K → Nat) (ht : HashTable K V) (k : K) (v : V) :
    HTRes (HashTable K V) :=
  if ht.table_size = 0 then .ub
  else
    let idx := hash k % ht.table_size
    match ht.buckets.get? idx with
    | none => .ub
    | some chain =>
      match lookupVal chain k with
      | some _ => .ok { ht with buckets := ht.buckets.set idx (setVal chain k v) }
      | none =>
        .ok { ht with
              buckets := ht.buckets.set idx ((k, v) :: chain)
              element_count := ht.element_count + 1 }

/-- The growth pre-check condition `element_count >= table_size * load_refactor`
(in the source a `size_t`-times-`float` comparison; here the exact rational
comparison).  It is written on the numerator/denominator of `load_refactor` so
that it evaluates by kernel reduction: for `q` with denominator `d > 0`,
`ts * q ≤ count ↔ ts * q.num ≤ count * d`; the equivalence with the
`ℚ`-level inequality is `growthPre_iff` below. -/
def growthPre (t : HashTable K V) : Prop :=
  (t.table_size : Int) * t.load_refactor.num ≤
    (t.element_count : Int) * (t.load_refactor.den : Int)

instance (t : HashTable K V) : Decidable (growthPre t) :=
  inferInstanceAs (Decidable (_ ≤ _))

/-- `void Insert(const Key&, const Value&)`: the growth pre-check
`if (element_count >= table_size * load_refactor) Resize();` runs first (before
the duplicate scan), then `insertCore`. -/
def Insert (hash : K → Nat) (t : HashTable K V) (k : K) (v : V) :
    HTRes (HashTable K V) :=
  HTRes.bind
    (if growthPre t then Resize hash t else .ok t)
    fun ht => insertCore hash ht k v

/-- `Value &Get(const Key&)`: hash, index, scan; throws `std::out_of_range` when
the chain is exhausted.  The source only reads, so the embedding returns the
value without a state (no mutation by construction). -/
def Get (hash : K → Nat) (t : HashTable K V) (k : K) : HTRes V :=
  if t.table_size = 0 then .ub
  else
    match t.buckets.get? (hash k % t.table_size) with
    | none => .ub
    | some chain =>
      match lookupVal chain k with
      | some v => .ok v
      | none => .keyNotFound

/-- `void Remove(Key&)`: hash, index, scan tracking the previous node; unlinks
the first match and decrements `element_count`, otherwise throws. -/
def Remove (hash : K → Nat) (t : HashTable K V) (k : K) : HTRes (HashTable K V) :=
  if t.table_size = 0 then .ub
  else
    let idx := hash k % t.table_size
    match t.buckets.get? idx with
    | none => .ub
    | some chain =>
      match removeKey chain k with
      | some chain' =>
        .ok { t with
              buckets := t.buckets.set idx chain'
              element_count := t.element_count - 1 }
      | none => .keyNotFound

/-- `bool ContainsKey(const Key&)`: same traversal as `Get`, boolean result. -/
def ContainsKey (hash : K → Nat) (t : HashTable K V) (k : K) : HTRes Bool :=
  if t.table_size = 0 then .ub
  else
    match t.buckets.get? (hash k % t.table_size) with
    | none => .ub
    | some chain => .ok (lookupVal chain k).isSome

/-- `void Clear()`: `buckets.clear(); element_count = 0;` — the vector becomes
*empty* (size 0) while `table_size` and `load_refactor` keep their values. -/
def Clear (t : HashTable K V) : HashTable K V :=
  { t with buckets := [], element_count := 0 }

/-- `bool IsEmpty() const`. -/
def IsEmpty (t : HashTable K V) : Bool :=
  t.element_count == 0

/-- `size_t Size() const`. -/
def Size (t : HashTable K V) : Nat :=
  t.element_count

/-- `HashTable(HashTable&&) noexcept`: the destination steals the vector and the
fields; the source is left with an empty vector, `table_size = 0`,
`element_count = 0`, `load_refactor = 0`.  Returned as
(destination, source-after-move). -/
def moveConstruct (t : HashTable K V) : HashTable K V × HashTable K V :=
  (t, { buckets := [], table_size := 0, element_count := 0, load_refactor := 0 })

/-- `operator=(HashTable&&) noexcept` (for distinct objects): the destination's
old entries are released, then the fields move over; the source is zeroed and
its vector cleared.  Returned as (destination-after, source-after). -/
def moveAssign (_dest src : HashTable K V) : HashTable K V × HashTable K V :=
  (src, { buckets := [], table_size := 0, element_count := 0, load_refactor := 0 })

/-!  Heap-level embedding of `CopyBuckets`, which works with raw `Node*` into
both tables and destroys nodes while iterating. -/

/-- A heap node: `Node { Key key; Value value; unique_ptr<Node> next; }`,
`next` as an optional address. -/
structure HNode (K V : Type) where
  key : K
  val : V
  next : Option Nat
deriving DecidableEq

/-- The heap: address `a` holds `some node` when allocated, `none` when freed
(or never allocated). -/
abbrev Heap (K V : Type) : Type := List (Option (HNode K V))

/-- Dereference: `none` when the address does not hold a live node. -/
def heapRead (h : Heap K V) (a : Nat) : Option (HNode K V) :=
  match h.get? a with
  | some (some n) => some n
  | _ => none

def heapWrite (h : Heap K V) (a : Nat) (n : HNode K V) : Heap K V :=
  h.set a (some n)

def heapFree1 (h : Heap K V) (a : Nat) : Heap K V :=
  h.set a none

def heapAlloc (h : Heap K V) (n : HNode K V) : Heap K V × Nat :=
  (h ++ [some n], h.length)

/-- Cascading `unique_ptr` destruction of a chain starting at `a`; destroying an
already-destroyed node is undefined (`none`).  `fuel` bounds the walk; every
call below passes more fuel than there are allocated cells. -/
def freeChain : Nat → Heap K V → Option Nat → Option (Heap K V)
  | _, h, none => some h
  | 0, _, some _ => none
  | fuel + 1, h, some a =>
    match heapRead h a with
    | none => none
    | some n => freeChain fuel (heapFree1 h a) n.next

/-- The `while (current != nullptr)` loop of `CopyBuckets` for bucket `i`,
statement by statement:
```
auto newNode = std::make_unique<Node>(current->key, current->value, nullptr);
if (previous == nullptr) { buckets[i] = std::move(newNode); }
else { previous->next = std::move(newNode); }
previous = previous == nullptr ? hash_table.buckets[i].get() : previous->next.get();
current = current->next.get();
```
`dest` is this table's bucket vector (of chain-head addresses), `srcHead` the
*source* table's `buckets[i].get()`.  Note the source line that seeds `previous`
with a pointer into the source chain. -/
def copyChainLoop : Nat → Heap K V → List (Option Nat) → Nat →
    Option Nat → Option Nat → Option Nat → HTRes (Heap K V × List (Option Nat))
  | 0, _, _, _, _, _, _ => .ub
  | fuel + 1, h, dest, i, srcHead, current, previous =>
    match current with
    | none => .ok (h, dest)
    | some c =>
      match heapRead h c with
      | none => .ub
      | some n =>
        let al := heapAlloc h ⟨n.key, n.val, none⟩
        let h1 := al.1
        let f := al.2
        match previous with
        | none =>
          match dest.get? i with
          | none => .ub
          | some old =>
            match freeChain (h1.length + 1) h1 old with
            | none => .ub
            | some h2 =>
              match heapRead h2 c with
              | none => .ub
              | some n' =>
                copyChainLoop fuel h2 (dest.set i (some f)) i srcHead n'.next srcHead
        | some p =>
          match heapRead h1 p with
          | none => .ub
          | some pn =>
            match freeChain (h1.length + 1) h1 pn.next with
            | none => .ub
            | some h2 =>
              let h3 := heapWrite h2 p ⟨pn.key, pn.val, some f⟩
              match heapRead h3 c with
              | none => .ub
              | some n' =>
                copyChainLoop fuel h3 dest i srcHead n'.next (some f)

/-- The `for (int i = 0; i < hash_table.table_size; ++i)` loop of `CopyBuckets`;
`m` counts the remaining iterations. -/
def copyAllBuckets (srcArr : List (Option Nat)) :
    Nat → Nat → Heap K V → List (Option Nat) → HTRes (Heap K V × List (Option Nat))
  | 0, _, h, dest => .ok (h, dest)
  | m + 1, i, h, dest =>
    match srcArr.get? i with
    | none => .ub
    | some srcHead =>
      match copyChainLoop (h.length + 2) h dest i srcHead srcHead none with
      | .ok (h', dest') => copyAllBuckets srcArr m (i + 1) h' dest'
      | .keyNotFound => .keyNotFound
      | .ub => .ub

/-- Lays one chain (head first) out on the heap. -/
def allocChain : Heap K V → List (K × V) → Heap K V × Option Nat
  | h, [] => (h, none)
  | h, e :: rest =>
    let hr := allocChain h rest
    let ha := heapAlloc hr.1 ⟨e.1, e.2, hr.2⟩
    (ha.1, some ha.2)

/-- Lays a whole bucket vector out on the heap. -/
def allocBuckets : Heap K V → List (List (K × V)) → Heap K V × List (Option Nat)
  | h, [] => (h, [])
  | h, c :: rest =>
    let hc := allocChain h c
    let hr := allocBuckets hc.1 rest
    (hr.1, hc.2 :: hr.2)

/-- `void CopyBuckets(const HashTable&)` run against a source table, with this
table's bucket vector holding `destLen` empty slots.  Only termination/UB is
reported — the claims about copying are settled by whether a defined result
exists at all. -/
def CopyBuckets (src : HashTable K V) (destLen : Nat) : HTRes Unit :=
  let ab := allocBuckets ([] : Heap K V) src.buckets
  match copyAllBuckets ab.2 src.table_size 0 ab.1 (List.replicate destLen none) with
  | .ok _ => .ok ()
  | .keyNotFound => .keyNotFound
  | .ub => .ub

/-- `HashTable(const HashTable&)`: the member initializers size this table's
vector to `other.table_size` (all null), then `CopyBuckets(other)` runs. -/
def copyConstructRun (src : HashTable K V) : HTRes Unit :=
  CopyBuckets src src.table_size

/-- `operator=(const HashTable&)` (distinct objects): `Clear()` first — which
*empties* this table's bucket vector — then the fields are copied and
`CopyBuckets(other)` runs against a vector of size 0. -/
def copyAssignRun (src : HashTable K V) : HTRes Unit :=
  CopyBuckets src 0

/-- Folds a list of insertions through `Insert`. -/
def insMany (hash : K → Nat) (t : HashTable K V) : List (K × V) → HTRes (HashTable K V)
  | [] => .ok t
  | e :: rest => HTRes.bind (Insert hash t e.1 e.2) fun t' => insMany hash t' rest

/-!  Invariants of the data model (§3 of the spec). -/

/-- Every entry of the chain at index `i` (counting from `start`) hashes to `i`
under `ts`. -/
def placedB (hash : K → Nat) (ts : Nat) : Nat → List (List (K × V)) → Bool
  | _, [] => true
  | i, c :: rest => (c.all fun e => hash e.1 % ts == i) && placedB hash ts (i + 1) rest

/-- Chain-placement invariant: every entry of the chain at bucket `i` satisfies
`hash(entry.key) % table_size = i`. -/
def wellPlaced (hash : K → Nat) (t : HashTable K V) : Prop :=
  placedB hash t.table_size 0 t.buckets = true

instance (hash : K → Nat) (t : HashTable K V) : Decidable (wellPlaced hash t) := by
  unfold wellPlaced; infer_instance

/-- All keys stored anywhere in the table, in bucket-then-chain order. -/
def allKeys (t : HashTable K V) : List K :=
  t.buckets.flatten.map Prod.fst

/-- Key-uniqueness invariant: no two entries of the whole table share a key. -/
def distinctKeys (t : HashTable K V) : Prop :=
  (allKeys t).Nodup

instance (t : HashTable K V) : Decidable (distinctKeys t) := by
  unfold distinctKeys; infer_instance

/-- Number of distinct keys currently stored. -/
def countDistinctKeys (t : HashTable K V) : Nat :=
  (allKeys t).dedup.length

/-- The pair `(k, v)` is stored somewhere in the table. -/
def stored (t : HashTable K V) (k : K) (v : V) : Prop :=
  ∃ c ∈ t.buckets, (k, v) ∈ c

instance (t : HashTable K V) (k : K) (v : V) [DecidableEq V] :
    Decidable (stored t k v) := by
  unfold stored; infer_instance

/-- Well-formed table: positive capacity, bucket vector of exactly that size,
placement and key-uniqueness invariants, and an accurate element count. -/
def WF (hash : K → Nat) (t : HashTable K V) : Prop :=
  1 ≤ t.table_size ∧
  t.buckets.length = t.table_size ∧
  wellPlaced hash t ∧
  distinctKeys t ∧
  t.element_count = (t.buckets.map List.length).sum

instance (hash : K → Nat) (t : HashTable K V) : Decidable (WF hash t) := by
  unfold WF; infer_instance

end HashTableModel

namespace HashTableModel

variable {K V : Type} [DecidableEq K]

/-!  Helper lemmas about `List.get?` and the chain primitives. -/

theorem mem_of_get? {α : Type} {l : List α} {n : Nat} {a : α}
    (h : l.get? n = some a) : a ∈ l := by
  induction l generalizing n with
  | nil => simp [List.get?] at h
  | cons b rest ih =>
    cases n with
    | zero =>
      obtain rfl : b = a := Option.some.inj h
      exact List.mem_cons_self _ _
    | succ m => exact List.mem_cons_of_mem _ (ih h)

theorem exists_get?_of_mem {α : Type} {l : List α} {a : α} (h : a ∈ l) :
    ∃ n, l.get? n = some a := by
  induction l with
  | nil => simp at h
  | cons b rest ih =>
    rcases List.mem_cons.1 h with rfl | h'
    · exact ⟨0, rfl⟩
    · obtain ⟨n, hn⟩ := ih h'
      exact ⟨n + 1, hn⟩

theorem get?_replicate_lt {α : Type} (a : α) {n i : Nat} (h : i < n) :
    (List.replicate n a).get? i = some a := by
  induction n generalizing i with
  | zero => omega
  | succ m ih =>
    cases i with
    | zero => rfl
    | succ j => exact ih (by omega)

theorem lookupVal_mem {c : List (K × V)} {k : K} {v : V}
    (h : lookupVal c k = some v) : (k, v) ∈ c := by
  induction c with
  | nil => simp [lookupVal] at h
  | cons e rest ih =>
    by_cases he : e.1 = k
    · rw [lookupVal, if_pos he] at h
      cases e with
      | mk ek ev =>
        obtain rfl : ev = v := Option.some.inj h
        subst he
        exact List.mem_cons_self _ _
    · rw [lookupVal, if_neg he] at h
      exact List.mem_cons_of_mem _ (ih h)

theorem lookupVal_eq_some_of_mem {c : List (K × V)} {k : K} {v : V}
    (hnd : (c.map Prod.fst).Nodup) (hm : (k, v) ∈ c) :
    lookupVal c k = some v := by
  induction c with
  | nil => simp at hm
  | cons e rest ih =>
    rcases List.mem_cons.1 hm with heq | hmem
    · subst heq
      simp [lookupVal]
    · have hk : k ∈ rest.map Prod.fst := List.mem_map_of_mem _ hmem
      have hnd' : e.1 ∉ rest.map Prod.fst ∧ (rest.map Prod.fst).Nodup := by
        rw [List.map_cons, List.nodup_cons] at hnd; exact hnd
      by_cases he : e.1 = k
      · exact absurd (by rw [he]; exact hk) hnd'.1
      · rw [lookupVal, if_neg he]
        exact ih hnd'.2 hmem

theorem lookupVal_eq_none_iff {c : List (K × V)} {k : K} :
    lookupVal c k = none ↔ ∀ v, (k, v) ∉ c := by
  induction c with
  | nil => simp [lookupVal]
  | cons e rest ih =>
    by_cases he : e.1 = k
    · rw [lookupVal, if_pos he]
      constructor
      · intro h; exact absurd h (by simp)
      · intro hall
        exfalso
        refine hall e.2 ?_
        cases e with
        | mk ek ev =>
          subst he
          exact List.mem_cons_self _ _
    · rw [lookupVal, if_neg he, ih]
      constructor
      · intro hall v hv
        rcases List.mem_cons.1 hv with heq | hm
        · exact he ((congrArg Prod.fst heq).symm)
        · exact hall v hm
      · intro hall v hv
        exact hall v (List.mem_cons_of_mem _ hv)

theorem removeKey_eq_none_iff {c : List (K × V)} {k : K} :
    removeKey c k = none ↔ ∀ v, (k, v) ∉ c := by
  induction c with
  | nil => simp [removeKey]
  | cons e rest ih =>
    by_cases he : e.1 = k
    · rw [removeKey, if_pos he]
      constructor
      · intro h; exact absurd h (by simp)
      · intro hall
        exfalso
        refine hall e.2 ?_
        cases e with
        | mk ek ev =>
          subst he
          exact List.mem_cons_self _ _
    · rw [removeKey, if_neg he]
      rw [Option.map_eq_none', ih]
      constructor
      · intro hall v hv
        rcases List.mem_cons.1 hv with heq | hm
        · exact he ((congrArg Prod.fst heq).symm)
        · exact hall v hm
      · intro hall v hv
        exact hall v (List.mem_cons_of_mem _ hv)

theorem removeKey_some_spec {c c' : List (K × V)} {k : K}
    (h : removeKey c k = some c') :
    c'.length + 1 = c.length ∧
    (∀ k' v', k' ≠ k → ((k', v') ∈ c' ↔ (k', v') ∈ c)) ∧
    ((c.map Prod.fst).Nodup → ∀ v', (k, v') ∉ c') := by
  induction c generalizing c' with
  | nil => simp [removeKey] at h
  | cons e rest ih =>
    by_cases he : e.1 = k
    · rw [removeKey, if_pos he] at h
      obtain rfl : rest = c' := Option.some.inj h
      refine ⟨rfl, ?_, ?_⟩
      · intro k' v' hk
        constructor
        · exact List.mem_cons_of_mem _
        · intro hm
          rcases List.mem_cons.1 hm with heq | hm'
          · exact absurd ((congrArg Prod.fst heq).trans he) hk
          · exact hm'
      · intro hnd v' hv
        have hk : k ∈ rest.map Prod.fst := List.mem_map_of_mem _ hv
        have hnd' : e.1 ∉ rest.map Prod.fst ∧ (rest.map Prod.fst).Nodup := by
          rw [List.map_cons, List.nodup_cons] at hnd; exact hnd
        exact hnd'.1 (by rw [he]; exact hk)
    · rw [removeKey, if_neg he] at h
      cases hr : removeKey rest k with
      | none => rw [hr] at h; exact absurd h (by simp)
      | some rest' =>
        rw [hr] at h
        obtain rfl : e :: rest' = c' := Option.some.inj h
        obtain ⟨hlen, hmem, hnd⟩ := ih hr
        refine ⟨?_, ?_, ?_⟩
        · simp only [List.length_cons]; omega
        · intro k' v' hk
          constructor
          · intro hm
            rcases List.mem_cons.1 hm with heq | hm'
            · exact List.mem_cons.2 (Or.inl heq)
            · exact List.mem_cons_of_mem _ ((hmem k' v' hk).1 hm')
          · intro hm
            rcases List.mem_cons.1 hm with heq | hm'
            · exact List.mem_cons.2 (Or.inl heq)
            · exact List.mem_cons_of_mem _ ((hmem k' v' hk).2 hm')
        · intro hnodup v' hv
          have hnd' : e.1 ∉ rest.map Prod.fst ∧ (rest.map Prod.fst).Nodup := by
            rw [List.map_cons, List.nodup_cons] at hnodup; exact hnodup
          rcases List.mem_cons.1 hv with heq | hm'
          · exact he ((congrArg Prod.fst heq).symm)
          · exact hnd hnd'.2 v' hm'

theorem placedB_get? {hash : K → Nat} {ts : Nat} {l : List (List (K × V))} :
    ∀ {n j : Nat} {c : List (K × V)}, placedB hash ts n l = true →
      l.get? j = some c → ∀ e ∈ c, hash e.1 % ts = n + j := by
  induction l with
  | nil => intro n j c _ hg; simp [List.get?] at hg
  | cons c0 rest ih =>
    intro n j c hp hg e he
    rw [placedB, Bool.and_eq_true] at hp
    cases j with
    | zero =>
      obtain rfl : c0 = c := Option.some.inj hg
      have h2 : hash e.1 % ts = n := by simpa using List.all_eq_true.1 hp.1 e he
      rw [Nat.add_zero]
      exact h2
    | succ m =>
      have h2 := ih hp.2 hg e he
      rw [h2]
      omega

theorem chain_keys_nodup {t : HashTable K V} (hd : distinctKeys t)
    {c : List (K × V)} (hc : c ∈ t.buckets) : (c.map Prod.fst).Nodup :=
  List.Nodup.sublist (List.Sublist.map Prod.fst (List.sublist_flatten_of_mem hc)) hd

theorem stored_mem_hash_bucket {hash : K → Nat} {t : HashTable K V}
    (hpl : wellPlaced hash t) {k : K} {v : V} (hs : stored t k v)
    {c : List (K × V)}
    (hc : t.buckets.get? (hash k % t.table_size) = some c) : (k, v) ∈ c := by
  obtain ⟨c0, hc0, hm⟩ := hs
  obtain ⟨j, hj⟩ := exists_get?_of_mem hc0
  have hplaced := placedB_get? hpl hj (k, v) hm
  rw [Nat.zero_add] at hplaced
  have hji : j = hash k % t.table_size := hplaced.symm
  subst hji
  obtain rfl : c0 = c := Option.some.inj (hj.symm.trans hc)
  exact hm

end HashTableModel

namespace HashTableModel

variable {K V : Type} [DecidableEq K]

/-!  Behavior of `Resize` and `Insert` on a table whose bucket vector matches
`table_size` (needed for claim C3). -/

theorem resizeChain_ok (hash : K → Nat) (ts : Nat) (c : List (K × V))
    (nb : List (List (K × V))) (h1 : 1 ≤ ts) (h2 : ts ≤ nb.length) :
    ∃ nb', resizeChain hash ts c nb = .ok nb' ∧ nb'.length = nb.length := by
  induction c generalizing nb with
  | nil => exact ⟨nb, rfl, rfl⟩
  | cons e rest ih =>
    have hts : ¬ ts = 0 := by omega
    have hlt : hash e.1 % ts < nb.length := lt_of_lt_of_le (Nat.mod_lt _ (by omega)) h2
    have hget := List.get?_eq_get hlt
    obtain ⟨nb', hok, hlen⟩ :=
      ih (nb.set (hash e.1 % ts) (e :: nb.get ⟨hash e.1 % ts, hlt⟩))
        (by rw [List.length_set]; exact h2)
    refine ⟨nb', ?_, by rw [hlen, List.length_set]⟩
    rw [resizeChain, if_neg hts]
    simpa only [hget] using hok

theorem resizeBuckets_ok (hash : K → Nat) (ts : Nat) (l : List (List (K × V)))
    (nb : List (List (K × V))) (h1 : 1 ≤ ts) (h2 : ts ≤ nb.length) :
    ∃ nb', resizeBuckets hash ts l nb = .ok nb' ∧ nb'.length = nb.length := by
  induction l generalizing nb with
  | nil => exact ⟨nb, rfl, rfl⟩
  | cons c rest ih =>
    obtain ⟨nb1, hok1, hlen1⟩ := resizeChain_ok hash ts c nb h1 h2
    obtain ⟨nb', hok2, hlen2⟩ := ih nb1 (by rw [hlen1]; exact h2)
    refine ⟨nb', ?_, by rw [hlen2, hlen1]⟩
    rw [resizeBuckets, hok1]
    exact hok2

theorem Resize_ok (hash : K → Nat) (t : HashTable K V) (h1 : 1 ≤ t.table_size) :
    ∃ t', Resize hash t = .ok t' ∧ t'.table_size = t.table_size * 2 ∧
      t'.buckets.length = t.table_size * 2 ∧
      t'.element_count = t.element_count ∧
      t'.load_refactor = t.load_refactor := by
  obtain ⟨nb, hok, hlen⟩ :=
    resizeBuckets_ok hash t.table_size t.buckets
      (List.replicate (t.table_size * 2) []) h1
      (by rw [List.length_replicate]; omega)
  have heq : Resize hash t =
      .ok ⟨nb, t.table_size * 2, t.element_count, t.load_refactor⟩ := by
    rw [Resize, hok]
  exact ⟨_, heq, rfl, hlen.trans (by simp), rfl, rfl⟩

theorem insertCore_ok (hash : K → Nat) (ht : HashTable K V) (k : K) (v : V)
    (h1 : 1 ≤ ht.table_size) (h2 : ht.buckets.length = ht.table_size) :
    ∃ t', insertCore hash ht k v = .ok t' ∧ t'.table_size = ht.table_size ∧
      t'.element_count ≤ ht.element_count + 1 ∧
      t'.load_refactor = ht.load_refactor := by
  have hts : ¬ ht.table_size = 0 := by omega
  have hlt : hash k % ht.table_size < ht.buckets.length := by
    rw [h2]; exact Nat.mod_lt _ (by omega)
  have hget := List.get?_eq_get hlt
  cases hl : lookupVal (ht.buckets.get ⟨hash k % ht.table_size, hlt⟩) k with
  | some v0 =>
    have heq : insertCore hash ht k v = .ok { ht with
        buckets := ht.buckets.set (hash k % ht.table_size) (setVal (ht.buckets.get ⟨hash k % ht.table_size, hlt⟩) k v) } := by
      rw [insertCore, if_neg hts]
      simp only [hget, hl]
    exact ⟨_, heq, rfl, Nat.le_succ _, rfl⟩
  | none =>
    have heq : insertCore hash ht k v = .ok { ht with
        buckets := ht.buckets.set (hash k % ht.table_size) ((k, v) :: ht.buckets.get ⟨hash k % ht.table_size, hlt⟩),
        element_count := ht.element_count + 1 } := by
      rw [insertCore, if_neg hts]
      simp only [hget, hl]
    exact ⟨_, heq, rfl, Nat.le_refl _, rfl⟩

end HashTableModel

namespace HashTableModel

variable {K V : Type} [DecidableEq K]

/-!  Concrete states reached by the failing runs of the claims. -/

/-- The float literal `0.75f` as an exact rational, written in lowest terms with
the raw constructor so that it evaluates by kernel reduction (`(3 : ℚ)/4` is the
same rational, see `lf34_eq`, but Mathlib's division does not reduce). -/
def lf34 : ℚ := ⟨3, 4, by decide, by decide⟩

/-- The float literal `0.5f` as an exact rational. -/
def lf12 : ℚ := ⟨1, 2, by decide, by decide⟩

/-- The float literal `1.25f` as an exact rational. -/
def lf54 : ℚ := ⟨5, 4, by decide, by decide⟩

theorem lf34_eq : lf34 = 3 / 4 := by
  rw [← Rat.num_div_den lf34]
  show ((3 : Int) : ℚ) / ((4 : Nat) : ℚ) = 3 / 4
  norm_num

theorem lf54_eq : lf54 = 5 / 4 := by
  rw [← Rat.num_div_den lf54]
  show ((5 : Int) : ℚ) / ((4 : Nat) : ℚ) = 5 / 4
  norm_num


/-- The table `HashTable<size_t, size_t>(2, 0.75)` after `Insert(2,10); Insert(5,20)`
(`std::hash` on small unsigned integers is the identity, modeled by `fun k => k`). -/
def c1mid : HashTable Nat Nat := ⟨[[(2, 10)], [(5, 20)]], 2, 2, lf34⟩

/-- The same table after the third insert `Insert(7,30)`, which triggers `Resize`. -/
def c1post : HashTable Nat Nat := ⟨[[(2, 10)], [(5, 20)], [], [(7, 30)]], 4, 3, lf34⟩

/-- Claim C1: an `Insert` that triggers `Resize` is claimed to relocate every
entry to the bucket its key hashes to under the new capacity and to preserve
`Get`.  The source relocates with the *old* `table_size` (it updates
`table_size` only after the loop), so after growth from 2 to 4 the entry for
key 2 stays in bucket 0 while `Get(2)` scans bucket `2 % 4 = 2` and throws:
the key's pre-resize value 10 is no longer reachable. -/
theorem c1_resize_loses_key :
    insMany (fun k => k) (mkHashTable 2 lf34 : HashTable Nat Nat) [(2, 10), (5, 20)]
      = .ok c1mid ∧
    Get (fun k => k) c1mid 2 = .ok 10 ∧
    Insert (fun k => k) c1mid 7 30 = .ok c1post ∧
    c1post.table_size = 4 ∧
    c1post.element_count = 3 ∧
    Get (fun k => k) c1post 2 = .keyNotFound ∧
    ¬ wellPlaced (fun k => k) c1post := by decide

/-- The table `HashTable<size_t, size_t>(2, 0.75)` after
`Insert(2,10); Insert(5,20); Insert(2,40)`: the third call resizes first
(leaving the old entry for key 2 in bucket 0), then fails to find key 2 in
bucket `2 % 4 = 2` and stores a *second* entry with key 2. -/
def c2state : HashTable Nat Nat := ⟨[[(2, 10)], [(5, 20)], [(2, 40)], []], 4, 3, lf34⟩

/-- Claim C2: the chain-placement invariant, key uniqueness, and
`count = number of distinct keys` are all violated in a state reachable by
three `Insert` calls: key 2 is stored twice, `element_count` is 3 while only
2 distinct keys are stored, and the entry `(2,10)` sits in bucket 0 although
`2 % 4 = 2`. -/
theorem c2_invariants_broken :
    insMany (fun k => k) (mkHashTable 2 lf34 : HashTable Nat Nat)
      [(2, 10), (5, 20), (2, 40)] = .ok c2state ∧
    ¬ wellPlaced (fun k => k) c2state ∧
    ¬ distinctKeys c2state ∧
    countDistinctKeys c2state = 2 ∧
    c2state.element_count = 3 := by decide

/-- `HashTable<size_t, size_t>(2, 0.75)` after `Insert(0,1); Insert(1,2)`. -/
def c3state : HashTable Nat Nat := ⟨[[(0, 1)], [(1, 2)]], 2, 2, lf34⟩

/-- Claim C3 (counterexample): the source's pre-check is
`element_count >= table_size * load_refactor`, not `count + 1 > capacity * maxLoad`.
On the table constructed with capacity 2 and max load factor 0.75, the insert
of the second distinct key does *not* trigger growth (`1 >= 1.5` is false):
capacity stays 2 and afterwards `count = 2 > 2 * 0.75`, violating the claimed
post-`Insert` load bound. -/
theorem c3_second_insert_does_not_grow :
    insMany (fun k => k) (mkHashTable 2 lf34 : HashTable Nat Nat) [(0, 1), (1, 2)]
      = .ok c3state ∧
    c3state.table_size = 2 ∧
    c3state.element_count = 2 ∧
    ¬ ((c3state.element_count : ℚ) ≤ (c3state.table_size : ℚ) * c3state.load_refactor) := by
  refine ⟨by decide, by decide, by decide, ?_⟩
  show ¬ (((2 : Nat) : ℚ) ≤ ((2 : Nat) : ℚ) * lf34)
  rw [lf34_eq]
  norm_num

/-- `HashTable<size_t, size_t>(2, 0.75)` after `Insert(2,10); Insert(7,20)`. -/
def c7mid : HashTable Nat Nat := ⟨[[(2, 10)], [(7, 20)]], 2, 2, lf34⟩

/-- The same table after the overwriting call `Insert(2,40)`. -/
def c7post : HashTable Nat Nat := ⟨[[(2, 10)], [(7, 20)], [(2, 40)], []], 4, 3, lf34⟩

/-- Claim C7: `Insert(2,40)` on a table already holding key 2 is claimed to
overwrite in place, keep `count` unchanged, and leave unrelated keys intact.
Because the pre-check fires and `Resize` misplaces the existing entries (old
`table_size` is used for relocation), the overwriting insert instead adds a
duplicate (`count` 2 → 3) and the *unrelated* key 7 becomes unreachable. -/
theorem c7_overwrite_breaks_count_and_unrelated_key :
    insMany (fun k => k) (mkHashTable 2 lf34 : HashTable Nat Nat) [(2, 10), (7, 20)]
      = .ok c7mid ∧
    Get (fun k => k) c7mid 2 = .ok 10 ∧
    Get (fun k => k) c7mid 7 = .ok 20 ∧
    c7mid.element_count = 2 ∧
    Insert (fun k => k) c7mid 2 40 = .ok c7post ∧
    c7post.element_count = 3 ∧
    Get (fun k => k) c7post 7 = .keyNotFound ∧
    Get (fun k => k) c7post 2 = .ok 40 := by decide

/-- `HashTable<size_t, size_t>(4, 0.75)` after `Insert(1,10)`. -/
def c5full : HashTable Nat Nat := ⟨[[], [(1, 10)], [], []], 4, 1, lf34⟩

/-- The same table after `Clear()`: the bucket *vector* is empty (size 0)
although `table_size` still reads 4. -/
def c5cleared : HashTable Nat Nat := ⟨[], 4, 0, lf34⟩

/-- Claim C5: `Clear` does reset `count` and keep `table_size`/`load_refactor`,
but `buckets.clear()` leaves a size-0 vector, so the subsequent
`ContainsKey(1)` and `Insert(5,50)` index `buckets[hash]` out of bounds
(undefined behavior) instead of returning false resp. succeeding. -/
theorem c5_clear_leaves_table_unusable :
    Insert (fun k => k) (mkHashTable 4 lf34 : HashTable Nat Nat) 1 10 = .ok c5full ∧
    Clear c5full = c5cleared ∧
    c5cleared.element_count = 0 ∧
    c5cleared.table_size = 4 ∧
    c5cleared.load_refactor = lf34 ∧
    ContainsKey (fun k => k) c5cleared 1 = .ub ∧
    Insert (fun k => k) c5cleared 5 50 = .ub := by decide

/-- Claim C6: move construction/assignment do transfer the fields to the
destination, but the source is left with `table_size = 0`, so its very next
hashing operation computes `% 0` — undefined behavior, not the behavior of a
valid empty table with capacity ≥ 1. -/
theorem c6_move_leaves_source_with_zero_capacity :
    (moveConstruct (mkHashTable 16 lf34 : HashTable Nat Nat)).1 = mkHashTable 16 lf34 ∧
    (moveConstruct (mkHashTable 16 lf34 : HashTable Nat Nat)).2.table_size = 0 ∧
    (moveConstruct (mkHashTable 16 lf34 : HashTable Nat Nat)).2.element_count = 0 ∧
    ContainsKey (fun k => k) (moveConstruct (mkHashTable 16 lf34 : HashTable Nat Nat)).2 0 = .ub ∧
    (moveAssign (mkHashTable 8 lf12) (mkHashTable 16 lf34 : HashTable Nat Nat)).1 = mkHashTable 16 lf34 ∧
    (moveAssign (mkHashTable 8 lf12) (mkHashTable 16 lf34 : HashTable Nat Nat)).2.table_size = 0 ∧
    Get (fun k => k) (moveAssign (mkHashTable 8 lf12) (mkHashTable 16 lf34 : HashTable Nat Nat)).2 0 = .ub := by
  decide

/-- Claim C4: copy construction of a table holding a two-node chain (keys 0 and
16 both hash to bucket 0 of a capacity-2 table) reads a node that the loop
itself destroyed (`previous` is seeded with a pointer into the *source* chain,
so `previous->next = move(newNode)` frees the source's second node, which is
still `current`); copy assignment `Clear()`s this table's bucket vector first,
so copying even a single-entry source writes `buckets[i]` out of bounds. -/
theorem c4_copy_reads_destroyed_node :
    HTRes.bind (insMany (fun k => k) (mkHashTable 2 lf34 : HashTable Nat Nat)
      [(0, 1), (16, 2)]) (fun s => copyConstructRun s) = .ub ∧
    HTRes.bind (insMany (fun k => k) (mkHashTable 4 lf34 : HashTable Nat Nat)
      [(1, 10)]) (fun s => copyAssignRun s) = .ub := by decide

/-- Claim C9 (counterexample): the constructor body is only the member
initializer list plus `buckets.resize(table_size)` — no validation.  Capacity 0
is accepted (and the resulting table hits `% 0` undefined behavior on first
use), and a load factor of 1.25, outside `(0, 1]`, is stored verbatim. -/
theorem c9_constructor_accepts_invalid_configuration :
    (mkHashTable 0 lf34 : HashTable Nat Nat) = ⟨[], 0, 0, lf34⟩ ∧
    ContainsKey (fun k => k) (mkHashTable 0 lf34 : HashTable Nat Nat) 3 = .ub ∧
    Insert (fun k => k) (mkHashTable 0 lf34 : HashTable Nat Nat) 1 1 = .ub ∧
    (mkHashTable 16 lf54 : HashTable Nat Nat).load_refactor = 5 / 4 ∧
    1 < (mkHashTable 16 lf54 : HashTable Nat Nat).load_refactor ∧
    (mkHashTable 16 lf54 : HashTable Nat Nat).table_size = 16 := by
  refine ⟨by decide, by decide, by decide, ?_, ?_, rfl⟩
  · show lf54 = 5 / 4
    exact lf54_eq
  · show (1 : ℚ) < lf54
    rw [lf54_eq]
    norm_num

end HashTableModel

namespace HashTableModel

variable {K V : Type} [DecidableEq K]

/-!  The integer form of the load-factor comparison agrees with the rational
form. -/

theorem mul_ratnum_le_iff (a b : Nat) (q : ℚ) :
    ((a : Int) * q.num ≤ (b : Int) * (q.den : Int)) ↔ ((a : ℚ) * q ≤ (b : ℚ)) := by
  have hd : (0 : ℚ) < (q.den : ℚ) := by exact_mod_cast q.den_pos
  have hden0 : ((q.den : ℚ)) ≠ 0 := ne_of_gt hd
  have h1 : ((q.num : ℚ) / (q.den : ℚ)) * (q.den : ℚ) = (q.num : ℚ) :=
    div_mul_cancel₀ _ hden0
  rw [Rat.num_div_den q] at h1
  constructor
  · intro h
    have h' : ((a : ℚ)) * ((q.num : ℚ)) ≤ ((b : ℚ)) * ((q.den : ℚ)) := by
      exact_mod_cast h
    have h3 : ((a : ℚ) * q) * (q.den : ℚ) ≤ (b : ℚ) * (q.den : ℚ) := by
      rw [mul_assoc, h1]; exact h'
    exact le_of_mul_le_mul_right h3 hd
  · intro h
    have h3 : ((a : ℚ) * q) * (q.den : ℚ) ≤ (b : ℚ) * (q.den : ℚ) :=
      mul_le_mul_of_nonneg_right h (le_of_lt hd)
    rw [mul_assoc, h1] at h3
    exact_mod_cast h3

theorem growthPre_iff (t : HashTable K V) :
    growthPre t ↔ (t.table_size : ℚ) * t.load_refactor ≤ (t.element_count : ℚ) :=
  mul_ratnum_le_iff t.table_size t.element_count t.load_refactor

/-- Claim C3 (amended): `Insert` does perform its growth pre-check before
inserting, but the source's condition is `element_count ≥ capacity · maxLoadFactor`
(not `count + 1 > capacity · maxLoadFactor`): when it holds, capacity doubles
before the key is stored; when it does not, capacity is unchanged and after the
insert `count ≤ capacity · maxLoadFactor + 1`.  Consequently, on the concrete
capacity-2, load-factor-0.75 table the *second* distinct insert does not grow
the table (see the counterexample theorem). -/
theorem c3_insert_actual_precheck (hash : K → Nat) (t : HashTable K V)
    (k : K) (v : V) (h1 : 1 ≤ t.table_size)
    (h2 : t.buckets.length = t.table_size) :
    ∃ t', Insert hash t k v = .ok t' ∧
      t'.element_count ≤ t.element_count + 1 ∧
      t'.load_refactor = t.load_refactor ∧
      (((t.table_size : ℚ) * t.load_refactor ≤ (t.element_count : ℚ)) →
        t'.table_size = t.table_size * 2) ∧
      (¬ ((t.table_size : ℚ) * t.load_refactor ≤ (t.element_count : ℚ)) →
        t'.table_size = t.table_size ∧
        (t'.element_count : ℚ) ≤ (t.table_size : ℚ) * t.load_refactor + 1) := by
  by_cases htr : growthPre t
  · obtain ⟨ht, hr, hts, hlen, hcnt, hlf⟩ := Resize_ok hash t h1
    obtain ⟨t', hc, hts', hcnt', hlf'⟩ :=
      insertCore_ok hash ht k v (by omega) (by rw [hlen, hts])
    refine ⟨t', ?_, by omega, by rw [hlf', hlf],
      fun _ => by rw [hts', hts],
      fun hn => absurd ((growthPre_iff t).1 htr) hn⟩
    rw [Insert, if_pos htr, hr]
    exact hc
  · obtain ⟨t', hc, hts', hcnt', hlf'⟩ := insertCore_ok hash t k v h1 h2
    have hql : (t.element_count : ℚ) < (t.table_size : ℚ) * t.load_refactor :=
      lt_of_not_le (fun hle => htr ((growthPre_iff t).2 hle))
    refine ⟨t', ?_, hcnt', hlf',
      fun htr' => absurd ((growthPre_iff t).2 htr') htr,
      fun _ => ⟨hts', ?_⟩⟩
    · rw [Insert, if_neg htr]
      exact hc
    · have hc1 : (t'.element_count : ℚ) ≤ (t.element_count : ℚ) + 1 := by
        exact_mod_cast hcnt'
      linarith

/-- The default-flavored table `HashTable<size_t, size_t>(4, 0.75)` used to
instantiate the amended C3 theorem. -/
def c3ex : HashTable Nat Nat := mkHashTable 4 lf34

/-- Witness for the amended C3 theorem at a concrete input. -/
theorem c3_insert_actual_precheck_witness :
    ∃ t', Insert (fun k => k) c3ex 0 1 = .ok t' ∧
      t'.element_count ≤ c3ex.element_count + 1 ∧
      t'.load_refactor = c3ex.load_refactor ∧
      (((c3ex.table_size : ℚ) * c3ex.load_refactor ≤ (c3ex.element_count : ℚ)) →
        t'.table_size = c3ex.table_size * 2) ∧
      (¬ ((c3ex.table_size : ℚ) * c3ex.load_refactor ≤ (c3ex.element_count : ℚ)) →
        t'.table_size = c3ex.table_size ∧
        (t'.element_count : ℚ) ≤ (c3ex.table_size : ℚ) * c3ex.load_refactor + 1) :=
  c3_insert_actual_precheck (fun k => k) c3ex 0 1 (by decide) (by decide)

end HashTableModel

namespace HashTableModel

variable {K V : Type} [DecidableEq K]

/-- Claim C8: on a well-formed table (capacity ≥ 1, bucket vector of that size,
placement and key-uniqueness invariants, accurate count — the state the data
model guarantees for a usable table), `Get` returns the stored value exactly
when an entry with the key exists and throws `KeyNotFound` exactly when none
does (the source only reads, so the embedding of `Get` is state-free);
`Remove` throws `KeyNotFound` exactly when the key is absent — it never
silently no-ops — and on success unlinks exactly that entry, decrements
`element_count` by one, and leaves every other key's entry intact. -/
theorem c8_get_remove_spec (hash : K → Nat) (t : HashTable K V) (k : K)
    (h : WF hash t) :
    (∀ v, stored t k v → Get hash t k = .ok v) ∧
    (Get hash t k = .keyNotFound ↔ ¬ ∃ v, stored t k v) ∧
    (Remove hash t k = .keyNotFound ↔ ¬ ∃ v, stored t k v) ∧
    (∀ v, stored t k v →
      ∃ t', Remove hash t k = .ok t' ∧
        t'.element_count + 1 = t.element_count ∧
        t'.table_size = t.table_size ∧
        t'.load_refactor = t.load_refactor ∧
        (∀ k' v', k' ≠ k → (stored t' k' v' ↔ stored t k' v')) ∧
        ¬ ∃ v', stored t' k v') := by
  obtain ⟨h1, h2, hpl, hnd, hcnt⟩ := h
  have hts : ¬ t.table_size = 0 := by omega
  have hlt : hash k % t.table_size < t.buckets.length := by
    rw [h2]; exact Nat.mod_lt _ (by omega)
  have hget := List.get?_eq_get hlt
  have hcm : t.buckets.get ⟨hash k % t.table_size, hlt⟩ ∈ t.buckets :=
    mem_of_get? hget
  have hcnodup := chain_keys_nodup hnd hcm
  have pGet : ∀ v, stored t k v → Get hash t k = .ok v := by
    intro v hs
    have hm := stored_mem_hash_bucket hpl hs hget
    have hlk := lookupVal_eq_some_of_mem hcnodup hm
    rw [Get, if_neg hts]
    simp only [hget, hlk]
  refine ⟨pGet, ?_, ?_, ?_⟩
  · constructor
    · intro hg hex
      obtain ⟨v, hs⟩ := hex
      rw [pGet v hs] at hg
      exact absurd hg (by simp)
    · intro hnex
      cases hl : lookupVal (t.buckets.get ⟨hash k % t.table_size, hlt⟩) k with
      | some v =>
        exact absurd ⟨v, ⟨_, hcm, lookupVal_mem hl⟩⟩ hnex
      | none =>
        rw [Get, if_neg hts]
        simp only [hget, hl]
  · constructor
    · intro hr hex
      obtain ⟨v, hs⟩ := hex
      have hm := stored_mem_hash_bucket hpl hs hget
      cases hrem : removeKey (t.buckets.get ⟨hash k % t.table_size, hlt⟩) k with
      | some c' =>
        rw [Remove, if_neg hts] at hr
        simp only [hget, hrem] at hr
        exact HTRes.noConfusion hr
      | none =>
        exact removeKey_eq_none_iff.1 hrem v hm
    · intro hnex
      cases hrem : removeKey (t.buckets.get ⟨hash k % t.table_size, hlt⟩) k with
      | some c' =>
        exfalso
        have hne : removeKey (t.buckets.get ⟨hash k % t.table_size, hlt⟩) k ≠ none := by
          rw [hrem]; simp
        rw [Ne, removeKey_eq_none_iff] at hne
        push_neg at hne
        obtain ⟨v, hv⟩ := hne
        exact hnex ⟨v, ⟨_, hcm, hv⟩⟩
      | none =>
        rw [Remove, if_neg hts]
        simp only [hget, hrem]
  · intro v hs
    have hm := stored_mem_hash_bucket hpl hs hget
    cases hrem : removeKey (t.buckets.get ⟨hash k % t.table_size, hlt⟩) k with
    | none => exact absurd hm (removeKey_eq_none_iff.1 hrem v)
    | some chain' =>
      obtain ⟨hlen, hpres, hgone⟩ := removeKey_some_spec hrem
      have heq : Remove hash t k =
          .ok ⟨t.buckets.set (hash k % t.table_size) chain',
            t.table_size, t.element_count - 1, t.load_refactor⟩ := by
        rw [Remove, if_neg hts]
        simp only [hget, hrem]
      refine ⟨_, heq, ?_, rfl, rfl, ?_, ?_⟩
      · have hmem_len : (t.buckets.get ⟨hash k % t.table_size, hlt⟩).length ∈
            t.buckets.map List.length := List.mem_map_of_mem _ hcm
        have hsum : (t.buckets.get ⟨hash k % t.table_size, hlt⟩).length ≤
            (t.buckets.map List.length).sum := List.le_sum_of_mem hmem_len
        have hpos : 0 < (t.buckets.get ⟨hash k % t.table_size, hlt⟩).length :=
          List.length_pos.2 (List.ne_nil_of_mem hm)
        show t.element_count - 1 + 1 = t.element_count
        omega
      · intro k' v' hk
        constructor
        · rintro ⟨c, hcmem, hm'⟩
          obtain ⟨j, hj⟩ := exists_get?_of_mem hcmem
          by_cases hji : j = hash k % t.table_size
          · subst hji
            have h5 : (t.buckets.set (hash k % t.table_size) chain').get?
                (hash k % t.table_size) = some chain' :=
              List.get?_set_eq_of_lt _ hlt
            obtain rfl : c = chain' := Option.some.inj (hj.symm.trans h5)
            exact ⟨_, hcm, (hpres k' v' hk).1 hm'⟩
          · have h5 : (t.buckets.set (hash k % t.table_size) chain').get? j =
                t.buckets.get? j := List.get?_set_ne _ _ (fun hh => hji hh.symm)
            rw [h5] at hj
            exact ⟨c, mem_of_get? hj, hm'⟩
        · rintro ⟨c, hcmem, hm'⟩
          obtain ⟨j, hj⟩ := exists_get?_of_mem hcmem
          by_cases hji : j = hash k % t.table_size
          · subst hji
            obtain rfl : c = t.buckets.get ⟨hash k % t.table_size, hlt⟩ :=
              Option.some.inj (hj.symm.trans hget)
            refine ⟨chain', ?_, (hpres k' v' hk).2 hm'⟩
            exact mem_of_get? (List.get?_set_eq_of_lt _ hlt)
          · refine ⟨c, ?_, hm'⟩
            have h5 : (t.buckets.set (hash k % t.table_size) chain').get? j =
                t.buckets.get? j := List.get?_set_ne _ _ (fun hh => hji hh.symm)
            exact mem_of_get? (by rw [h5]; exact hj)
      · rintro ⟨v', c, hcmem, hm'⟩
        obtain ⟨j, hj⟩ := exists_get?_of_mem hcmem
        by_cases hji : j = hash k % t.table_size
        · subst hji
          have h5 : (t.buckets.set (hash k % t.table_size) chain').get?
              (hash k % t.table_size) = some chain' :=
            List.get?_set_eq_of_lt _ hlt
          obtain rfl : c = chain' := Option.some.inj (hj.symm.trans h5)
          exact hgone hcnodup v' hm'
        · have h5 : (t.buckets.set (hash k % t.table_size) chain').get? j =
              t.buckets.get? j := List.get?_set_ne _ _ (fun hh => hji hh.symm)
          rw [h5] at hj
          have h6 := placedB_get? hpl hj (k, v') hm'
          rw [Nat.zero_add] at h6
          exact hji h6.symm

/-- A tiny well-formed table (capacity 1, one entry) used to instantiate C8. -/
def c8ex : HashTable Nat Nat := ⟨[[(0, 5)]], 1, 1, lf34⟩

/-- Witness for C8 at a concrete well-formed table. -/
theorem c8_get_remove_spec_witness :
    Get (fun k => k) c8ex 0 = .ok 5 :=
  (c8_get_remove_spec (fun k => k) c8ex 0 (by decide)).1 5 (by decide)

/-- Claim C9 (amended): construction never raises — the constructor contains no
validation at all; for every `initialCapacity` and `maxLoadFactor` (valid or
not) it succeeds, and the new table carries the given capacity and load factor,
an empty bucket vector of that capacity, and no elements. -/
theorem c9_construction_unconditional (n : Nat) (q : ℚ) :
    (mkHashTable n q : HashTable K V).table_size = n ∧
    (mkHashTable n q : HashTable K V).load_refactor = q ∧
    (mkHashTable n q : HashTable K V).element_count = 0 ∧
    (mkHashTable n q : HashTable K V).buckets = List.replicate n [] :=
  ⟨rfl, rfl, rfl, rfl⟩

/-- Claim C10: a freshly constructed table with any capacity ≥ 1 and any load
factor is empty — `Size` is 0, `IsEmpty` is true, and for *every* key
`ContainsKey` returns false and `Get` fails with `KeyNotFound`. -/
theorem c10_fresh_table_is_empty (hash : K → Nat) (n : Nat) (q : ℚ) (k : K)
    (h : 1 ≤ n) :
    Size (mkHashTable n q : HashTable K V) = 0 ∧
    IsEmpty (mkHashTable n q : HashTable K V) = true ∧
    ContainsKey hash (mkHashTable n q : HashTable K V) k = .ok false ∧
    Get hash (mkHashTable n q : HashTable K V) k = .keyNotFound := by
  have hn : ¬ (n = 0) := by omega
  have hget : (List.replicate n ([] : List (K × V))).get? (hash k % n) = some [] :=
    get?_replicate_lt _ (Nat.mod_lt _ (by omega))
  refine ⟨rfl, rfl, ?_, ?_⟩
  · rw [ContainsKey,
      if_neg (show ¬ ((mkHashTable n q : HashTable K V).table_size = 0) from hn)]
    rw [show (mkHashTable n q : HashTable K V).buckets.get?
        (hash k % (mkHashTable n q : HashTable K V).table_size) = some [] from hget]
    rfl
  · rw [Get,
      if_neg (show ¬ ((mkHashTable n q : HashTable K V).table_size = 0) from hn)]
    rw [show (mkHashTable n q : HashTable K V).buckets.get?
        (hash k % (mkHashTable n q : HashTable K V).table_size) = some [] from hget]
    rfl

/-- Witness for C10 at the default configuration (capacity 16, load factor 0.75). -/
theorem c10_fresh_table_is_empty_witness :
    Size (mkHashTable 16 lf34 : HashTable Nat Nat) = 0 ∧
    IsEmpty (mkHashTable 16 lf34 : HashTable Nat Nat) = true ∧
    ContainsKey (fun k => k) (mkHashTable 16 lf34 : HashTable Nat Nat) 5 = .ok false ∧
    Get (fun k => k) (mkHashTable 16 lf34 : HashTable Nat Nat) 5 = .keyNotFound :=
  c10_fresh_table_is_empty (fun k => k) 16 lf34 5 (by decide)

end HashTableModel

namespace HashTableModel

/-- Claim C8 (counterexample): capacity ≥ 1 alone is not enough.  The state
`c1post` is reached from a fresh table by three public `Insert` calls and has
capacity 4, yet — because `Resize` misplaced the entry `(2, 10)` — `Get(2)`
and `Remove(2)` both raise `KeyNotFound` although an entry with key 2 is
stored.  The claim's Get/Remove contract holds once the data-model invariants
(entries in their hash buckets, no duplicate keys, accurate count) are added
to the hypothesis. -/
theorem c8_capacity_alone_insufficient :
    1 ≤ c1post.table_size ∧
    stored c1post 2 10 ∧
    Get (fun k => k) c1post 2 = .keyNotFound ∧
    Remove (fun k => k) c1post 2 = .keyNotFound := by decide

end HashTableModel
